import Mathlib

/-!
Verification of the authenticated real-time notification layer of the
iteca_backend repository: the JWT token lifecycle service
(`src/server/auth/jwt.ts`), the session-gate helpers
(`src/server/auth/util.ts`, `src/server/package.ts`), and the SSE channel
registry (`src/server/routes/messanger/subscribeChannel.ts`,
`src/server/routes/messanger/sseManager.ts`).

The external credential store (MongoDB `RefreshToken` collection) is
embedded as an in-memory list of records in insertion order; `findOne`
returns the first match and `updateOne` updates the first match, which is
the natural-order semantics the code relies on.  Cryptographic signing is
embedded symbolically: a token carries its payload, the key it was signed
with, and its absolute expiry; `jwt.verify(token, key)` succeeds exactly
when the key matches and the token is unexpired at the current time.
All operations are parameterised by the current wall-clock time `now`
(milliseconds), standing for `Date.now()`.
-/

namespace Iteca

/-- Default `CONFIG.jwt.accessTokenExpiry`: 15 minutes in milliseconds. -/
def accessTokenExpiry : Nat := 900000

/-- Default `CONFIG.jwt.refreshTokenExpiry`: 7 days in milliseconds. -/
def refreshTokenExpiry : Nat := 604800000

/-- The `TokenPayload` interface of `jwt.ts` (the `exp`/`iat` claims added
by the jsonwebtoken library are carried on the token itself). -/
structure TokenPayload where
  userId : String
  expires : Nat
deriving DecidableEq, Repr

/-- The two signing secrets of `CONFIG.jwt`. -/
inductive Key where
  | accessSecret
  | refreshSecret
deriving DecidableEq, Repr

/-- A signed JWT: payload, signing key, absolute expiry (ms) and issue time. -/
structure JwtToken where
  payload : TokenPayload
  key : Key
  exp : Nat
  iat : Nat
deriving DecidableEq, Repr

/-- `jwt.verify(token, key)` at wall-clock time `now`: succeeds iff the
token was signed with `key` and is unexpired. -/
def jwtVerify (key : Key) (now : Nat) (t : JwtToken) : Option TokenPayload :=
  if t.key = key ∧ now < t.exp then some t.payload else none

/-- A document of the `RefreshToken` Mongo collection. -/
structure RefreshRecord where
  userId : String
  token : JwtToken
  expiresAt : Nat
  isRevoked : Bool
deriving DecidableEq, Repr

/-- The credential store: records in insertion order. -/
abbrev TokenStore := List RefreshRecord

/-- `RefreshToken.findOne({ token })`: first record holding this token. -/
def findByToken : TokenStore → JwtToken → Option RefreshRecord
  | [], _ => none
  | r :: rest, t => if r.token = t then some r else findByToken rest t

/-- `RefreshToken.create({ userId, token, expiresAt })` (the schema default
for `isRevoked` is `false`). -/
def storeRefreshToken (store : TokenStore) (userId : String) (t : JwtToken)
    (expiresAt : Nat) : TokenStore :=
  store ++ [⟨userId, t, expiresAt, false⟩]

/-- `RefreshToken.updateOne({ userId, token }, { isRevoked: true })`:
sets the flag on the first record matching both fields (a no-op when no
record matches), the body of `JWTService.revokeRefreshToken`. -/
def revokeRefreshToken : TokenStore → String → JwtToken → TokenStore
  | [], _, _ => []
  | r :: rest, uid, t =>
      if r.userId = uid ∧ r.token = t then
        ⟨r.userId, r.token, r.expiresAt, true⟩ :: rest
      else
        r :: revokeRefreshToken rest uid t

/-- `JWTService.isTokenRevoked`: true when the record is missing or its
`isRevoked` flag is set. -/
def isTokenRevoked (store : TokenStore) (t : JwtToken) : Bool :=
  match findByToken store t with
  | none => true
  | some r => r.isRevoked

/-- `JWTService.verifyAccessToken`: stateless signature/expiry check
against the access secret; `null` on any failure. -/
def verifyAccessToken (now : Nat) (t : JwtToken) : Option TokenPayload :=
  jwtVerify Key.accessSecret now t

/-- `JWTService.verifyRefreshToken`: the revocation check runs first
(missing record counts as revoked), then signature/expiry against the
refresh secret. -/
def verifyRefreshToken (store : TokenStore) (now : Nat) (t : JwtToken) :
    Option TokenPayload :=
  if isTokenRevoked store t then none
  else jwtVerify Key.refreshSecret now t

/-- `JWTService.generateTokens`: mints an access/refresh pair carrying
`{userId, expires: now + accessTokenExpiry}` and persists the refresh
record.  Returns the pair and the updated store. -/
def generateTokens (store : TokenStore) (now : Nat) (userId : String) :
    JwtToken × JwtToken × TokenStore :=
  let payload : TokenPayload := ⟨userId, now + accessTokenExpiry⟩
  let accessToken : JwtToken := ⟨payload, Key.accessSecret, now + accessTokenExpiry, now⟩
  let refreshToken : JwtToken := ⟨payload, Key.refreshSecret, now + refreshTokenExpiry, now⟩
  (accessToken, refreshToken,
    storeRefreshToken store userId refreshToken (now + refreshTokenExpiry))

/-- `JWTService.refreshAccessToken`: verifies the refresh token and mints a
new access token from its (cleaned) payload; `null` when verification
fails. -/
def refreshAccessToken (store : TokenStore) (now : Nat) (refreshToken : JwtToken) :
    Option (JwtToken × TokenPayload) :=
  match verifyRefreshToken store now refreshToken with
  | none => none
  | some oldPayload =>
      let payload : TokenPayload := ⟨oldPayload.userId, now + accessTokenExpiry⟩
      some (⟨payload, Key.accessSecret, now + accessTokenExpiry, now⟩, payload)

/-- `JWTService.rotateTokens`: verify the old refresh token (via
`refreshAccessToken`), mint a wholly new pair, persist the new refresh
record, then revoke the old record; the returned access token is the one
from `refreshAccessToken` and the returned refresh token is the fresh one.
On verification failure nothing is written. -/
def rotateTokens (store : TokenStore) (now : Nat) (refreshToken : JwtToken) :
    Option (JwtToken × JwtToken × TokenPayload) × TokenStore :=
  match refreshAccessToken store now refreshToken with
  | none => (none, store)
  | some (accessToken, payload) =>
      let minted := generateTokens store now payload.userId
      let store2 := revokeRefreshToken minted.2.2 payload.userId refreshToken
      (some (accessToken, minted.2.1, payload), store2)

/-- The two credential cookies of a request (either may be absent). -/
structure Cookies where
  accessToken : Option JwtToken
  refreshToken : Option JwtToken
deriving DecidableEq, Repr

/-- A cookie mutation recorded on the response (`res.cookie` /
`res.clearCookie` for the two credential slots). -/
inductive CookieCmd where
  | setAccess (t : JwtToken)
  | setRefresh (t : JwtToken)
  | clearAccess
  | clearRefresh
deriving DecidableEq, Repr

/-- `JWTService.verifyAndRefreshTokens`: try the access cookie first; if it
fails and a refresh cookie is present, rotate and set both cookies.  The
`catch` branch that clears the cookies is reachable only when a callee
throws; every callee traps its own errors and returns `null`, so the
normal semantics emits no clear commands.  Returns (payload, store,
cookie commands). -/
def verifyAndRefreshTokens (store : TokenStore) (now : Nat) (cookies : Cookies) :
    Option TokenPayload × TokenStore × List CookieCmd :=
  let fromAccess :=
    match cookies.accessToken with
    | some a => verifyAccessToken now a
    | none => none
  match fromAccess with
  | some p => (some p, store, [])
  | none =>
      match cookies.refreshToken with
      | none => (none, store, [])
      | some r =>
          match rotateTokens store now r with
          | (none, store1) => (none, store1, [])
          | (some rotated, store1) =>
              (some rotated.2.2, store1,
                [CookieCmd.setAccess rotated.1, CookieCmd.setRefresh rotated.2.1])

/-- `validateJWT` of `auth/util.ts`: requires the access token, verifies
it, and when a refresh token is also supplied verifies it too and rejects
when the two subjects differ. -/
def validateJWT (store : TokenStore) (now : Nat) (accessToken : Option JwtToken)
    (refreshToken : Option JwtToken) : Option TokenPayload :=
  match accessToken with
  | none => none
  | some a =>
      match verifyAccessToken now a with
      | none => none
      | some ap =>
          match refreshToken with
          | none => some ap
          | some r =>
              match verifyRefreshToken store now r with
              | none => none
              | some rp => if ap.userId = rp.userId then some ap else none

/-- `validateJWTRequest` of `auth/util.ts`: fails when the request carries
no cookies at all or no refresh cookie (the early return), otherwise
delegates to `verifyAndRefreshTokens`; on success the payload is attached
to the request.  Returns (validated, attached payload, store, cookie
commands). -/
def validateJWTRequest (store : TokenStore) (now : Nat) (cookies : Option Cookies) :
    Bool × Option TokenPayload × TokenStore × List CookieCmd :=
  match cookies with
  | none => (false, none, store, [])
  | some c =>
      match c.refreshToken with
      | none => (false, none, store, [])
      | some _ =>
          match verifyAndRefreshTokens store now c with
          | (none, store1, cmds) => (false, none, store1, cmds)
          | (some p, store1, cmds) => (true, some p, store1, cmds)

/-- Outcome of the `Route.auth` middleware of `package.ts`. -/
inductive MiddlewareOutcome where
  | proceed (payload : TokenPayload)
  | unauthorized
deriving DecidableEq, Repr

/-- The JWT middleware pushed by `Route.auth` in `package.ts`: when
`validateJWTRequest` fails it terminates the request with a 401
`Unauthorized` JSON response; otherwise the pipeline proceeds with the
attached payload.  The cookie commands of the response are passed
through. -/
def authMiddleware (store : TokenStore) (now : Nat) (cookies : Option Cookies) :
    MiddlewareOutcome × TokenStore × List CookieCmd :=
  match validateJWTRequest store now cookies with
  | (true, some p, store1, cmds) => (MiddlewareOutcome.proceed p, store1, cmds)
  | (true, none, store1, cmds) => (MiddlewareOutcome.unauthorized, store1, cmds)
  | (false, _, store1, cmds) => (MiddlewareOutcome.unauthorized, store1, cmds)

/-!
The SSE channel registry.  JavaScript `Map`s are embedded as association
lists in insertion order (`Map.get`/`has` read the first binding,
`Map.set` overwrites in place, `Map.delete` removes the binding);
JavaScript `Set`s are embedded as duplicate-free lists in insertion order
(`Set.add` appends when the element is absent, `Set.delete` removes it,
`forEach` iterates in order).  Transport state (`res.writableEnded`, and
whether `res.write` throws) is carried on the connection as the snapshot
the operation observes.
-/

/-- `Map.get` on an association list keyed by strings. -/
def amGet {α : Type} : List (String × α) → String → Option α
  | [], _ => none
  | e :: rest, k => if e.1 = k then some e.2 else amGet rest k

/-- `Map.has`. -/
def amHas {α : Type} (m : List (String × α)) (k : String) : Bool :=
  (amGet m k).isSome

/-- `Map.set`: overwrite the existing binding in place, else append. -/
def amSet {α : Type} : List (String × α) → String → α → List (String × α)
  | [], k, v => [(k, v)]
  | e :: rest, k, v => if e.1 = k then (k, v) :: rest else e :: amSet rest k v

/-- `Map.delete`: remove the binding for the key. -/
def amDelete {α : Type} : List (String × α) → String → List (String × α)
  | [], _ => []
  | e :: rest, k => if e.1 = k then rest else e :: amDelete rest k

/-- Snapshot of a response transport: whether the stream has ended and
whether `res.write` would succeed without throwing. -/
structure Transport where
  writableEnded : Bool
  writeOk : Bool
deriving DecidableEq, Repr

/-- The `SSEConnection` interface of `sseManager.ts`; `connId` stands for
JavaScript object identity of the subscription object. -/
structure SSEConnection where
  connId : Nat
  res : Transport
  userId : String
deriving DecidableEq, Repr

/-- The `SSEMessage` event types. -/
inductive SSEType where
  | message
  | connected
  | heartbeat
  | user_joined
  | user_left
  | error
deriving DecidableEq, Repr

/-- The `SSEMessage` envelope (the timestamp stamped at send time is left
out of the model). -/
structure SSEMessage where
  type : SSEType
  data : Option String
  channelId : Option String
  message : Option String
deriving DecidableEq, Repr

/-- The fallible `res.write`: throws exactly when the transport's write
path is broken. -/
def resWrite (t : Transport) : Except String Unit :=
  if t.writeOk then Except.ok () else Except.error "write failed"

/-- `sendSSEMessage` of `sseManager.ts`: returns `false` when the stream
has already ended, traps a throwing `res.write` and returns `false`,
returns `true` when the write is accepted.  Total: never propagates an
exception. -/
def sendSSEMessage (connection : SSEConnection) (_message : SSEMessage) : Bool :=
  if connection.res.writableEnded then false
  else
    match resWrite connection.res with
    | Except.ok _ => true
    | Except.error _ => false

/-- `channelSubscriptions`: conversation id → set of live connections. -/
abbrev ChannelSubs := List (String × List SSEConnection)

/-- `Set.add`: append unless already a member. -/
def setAdd (s : List SSEConnection) (c : SSEConnection) : List SSEConnection :=
  if c ∈ s then s else s ++ [c]

/-- The registry state: the per-channel map and the all-channels map
(`allChannelsSubscriptions`: user id → connection). -/
structure RegistryState where
  channelSubs : ChannelSubs
  allSubs : List (String × SSEConnection)
deriving DecidableEq, Repr

/-- Core of the single-channel subscribe route: create the channel's set
when absent, then add the subscription. -/
def subscribeChannel (m : ChannelSubs) (channelId : String) (sub : SSEConnection) :
    ChannelSubs :=
  match amGet m channelId with
  | some s => amSet m channelId (setAdd s sub)
  | none => amSet m channelId (setAdd [] sub)

/-- The `cleanup` closure of the single-channel route: remove the
subscription from the channel's set and delete the set when it becomes
empty. -/
def cleanupChannel (m : ChannelSubs) (channelId : String) (sub : SSEConnection) :
    ChannelSubs :=
  match amGet m channelId with
  | none => m
  | some s =>
      let s1 := s.erase sub
      if s1.isEmpty then amDelete m channelId else amSet m channelId s1

/-- Core of the all-channels subscribe route: record the connection under
the user's all-conversations slot (overwriting any previous one), then add
it to every listed channel's set; with no channels the route returns 404
before touching the registry. -/
def subscribeAllChannels (st : RegistryState) (userId : String)
    (userChannels : List String) (sub : SSEConnection) : RegistryState :=
  if userChannels.isEmpty then st
  else
    ⟨userChannels.foldl (fun m ch => subscribeChannel m ch sub) st.channelSubs,
     amSet st.allSubs userId sub⟩

/-- The `cleanup` closure of the all-channels route: delete the user's
all-conversations slot unconditionally, then remove the subscription from
every listed channel's set, deleting sets left empty. -/
def cleanupAllChannels (st : RegistryState) (userId : String)
    (userChannels : List String) (sub : SSEConnection) : RegistryState :=
  ⟨userChannels.foldl (fun m ch => cleanupChannel m ch sub) st.channelSubs,
   amDelete st.allSubs userId⟩

/-- The `forEach` sweep of `broadcastMessageToChannel`: attempt delivery to
every connection in order, collecting successful deliveries and the failed
connections (`toRemove`). -/
def broadcastSweep : List SSEConnection → SSEMessage →
    List (SSEConnection × SSEMessage) × List SSEConnection
  | [], _ => ([], [])
  | c :: rest, msg =>
      let r := broadcastSweep rest msg
      if sendSSEMessage c msg then ((c, msg) :: r.1, r.2) else (r.1, c :: r.2)

/-- The broadcast envelope `{type: 'message', data, channelId}`. -/
def broadcastEnvelope (channelId : String) (data : String) : SSEMessage :=
  ⟨SSEType.message, some data, some channelId, none⟩

/-- `broadcastMessageToChannel`: no-op when the channel has no (or an
empty) set; otherwise sweep every subscriber, then delete the failed
connections from the set, and drop the map entry when the set is left
empty.  Returns the updated map and the deliveries performed. -/
def broadcastMessageToChannel (m : ChannelSubs) (channelId : String) (data : String) :
    ChannelSubs × List (SSEConnection × SSEMessage) :=
  match amGet m channelId with
  | none => (m, [])
  | some subs =>
      if subs.isEmpty then (m, [])
      else
        let sseMessage := broadcastEnvelope channelId data
        let swept := broadcastSweep subs sseMessage
        let subs1 := swept.2.foldl (fun s c => s.erase c) subs
        let m1 := if subs1.isEmpty then amDelete m channelId
                  else amSet m channelId subs1
        (m1, swept.1)

/-- `cleanupDeadConnections` of `sseManager.ts`: collect connections whose
stream has ended, delete them from the set, drop the entry when the set is
left empty; returns the removed count. -/
def cleanupDeadConnections (m : ChannelSubs) (channelId : String) :
    ChannelSubs × Nat :=
  match amGet m channelId with
  | none => (m, 0)
  | some connections =>
      let toRemove := connections.filter (fun c => c.res.writableEnded)
      let connections1 := toRemove.foldl (fun s c => s.erase c) connections
      let m1 := if connections1.isEmpty then amDelete m channelId
                else amSet m channelId connections1
      (m1, toRemove.length)

/-- One heartbeat timer tick of the subscribe routes: when the stream has
ended, stop the timer and run cleanup; otherwise send a heartbeat
message. -/
def heartbeatTick (m : ChannelSubs) (channelId : String) (sub : SSEConnection) :
    ChannelSubs × Bool :=
  if sub.res.writableEnded then (cleanupChannel m channelId sub, false)
  else (m, sendSSEMessage sub ⟨SSEType.heartbeat, none, none, none⟩)

/-- `isUserSubscribedToAllChannels`. -/
def isUserSubscribedToAllChannels (st : RegistryState) (userId : String) : Bool :=
  amHas st.allSubs userId

/-- Well-formedness: the map holds no duplicate keys (true of every
JavaScript `Map`). -/
def keysNodup {α : Type} (m : List (String × α)) : Prop :=
  (m.map Prod.fst).Nodup

/-- Well-formedness: every channel's subscriber list is duplicate-free
(true of every JavaScript `Set`). -/
def setsNodup (m : ChannelSubs) : Prop :=
  ∀ e ∈ m, List.Nodup e.2

/-- The spec invariant: no channel is mapped to an empty set. -/
def noEmpty (m : ChannelSubs) : Prop :=
  ∀ e ∈ m, e.2 ≠ []

instance keysNodupDecidable {α : Type} (m : List (String × α)) :
    Decidable (keysNodup m) := by
  unfold keysNodup; infer_instance

instance setsNodupDecidable (m : ChannelSubs) : Decidable (setsNodup m) := by
  unfold setsNodup; infer_instance

instance noEmptyDecidable (m : ChannelSubs) : Decidable (noEmpty m) := by
  unfold noEmpty; infer_instance

/-! Association-map lemmas. -/

theorem amGet_amSet_self {α : Type} (m : List (String × α)) (k : String) (v : α) :
    amGet (amSet m k v) k = some v := by
  induction m with
  | nil => simp [amSet, amGet]
  | cons e rest ih =>
      by_cases h : e.1 = k
      · simp [amSet, h, amGet]
      · simp [amSet, h, amGet, ih]

theorem amGet_amSet_ne {α : Type} (m : List (String × α)) (k k2 : String) (v : α)
    (h : k ≠ k2) : amGet (amSet m k v) k2 = amGet m k2 := by
  induction m with
  | nil => simp [amSet, amGet, h]
  | cons e rest ih =>
      by_cases he : e.1 = k
      · subst he
        simp [amSet, amGet, h]
      · by_cases he2 : e.1 = k2
        · simp [amSet, he, amGet, he2, Ne.symm h]
        · simp [amSet, he, amGet, he2, ih]

theorem amGet_amDelete_ne {α : Type} (m : List (String × α)) (k k2 : String)
    (h : k ≠ k2) : amGet (amDelete m k) k2 = amGet m k2 := by
  induction m with
  | nil => simp [amDelete]
  | cons e rest ih =>
      by_cases he : e.1 = k
      · subst he
        simp [amDelete, amGet, h]
      · by_cases he2 : e.1 = k2
        · simp [amDelete, he, amGet, he2, Ne.symm h]
        · simp [amDelete, he, amGet, he2, ih]

theorem amGet_eq_none_of_not_mem_keys {α : Type} (m : List (String × α)) (k : String)
    (h : k ∉ m.map Prod.fst) : amGet m k = none := by
  induction m with
  | nil => simp [amGet]
  | cons e rest ih =>
      simp only [List.map_cons, List.mem_cons] at h
      push_neg at h
      have h1 : e.1 ≠ k := fun hk => h.1 hk.symm
      simp [amGet, h1, ih h.2]

theorem amGet_amDelete_self {α : Type} (m : List (String × α)) (k : String)
    (h : keysNodup m) : amGet (amDelete m k) k = none := by
  induction m with
  | nil => simp [amDelete, amGet]
  | cons e rest ih =>
      unfold keysNodup at h
      simp only [List.map_cons, List.nodup_cons] at h
      by_cases he : e.1 = k
      · subst he
        simpa [amDelete] using amGet_eq_none_of_not_mem_keys rest e.1 h.1
      · simp [amDelete, he, amGet, ih h.2]

theorem amDelete_of_amGet_none {α : Type} (m : List (String × α)) (k : String)
    (h : amGet m k = none) : amDelete m k = m := by
  induction m with
  | nil => simp [amDelete]
  | cons e rest ih =>
      by_cases he : e.1 = k
      · simp [amGet, he] at h
      · simp [amGet, he] at h
        simp [amDelete, he, ih h]

theorem amSet_amSet {α : Type} (m : List (String × α)) (k : String) (v w : α) :
    amSet (amSet m k v) k w = amSet m k w := by
  induction m with
  | nil => simp [amSet]
  | cons e rest ih =>
      by_cases he : e.1 = k
      · simp [amSet, he]
      · simp [amSet, he, ih]

theorem amSet_self_of_amGet {α : Type} (m : List (String × α)) (k : String) (v : α)
    (h : amGet m k = some v) : amSet m k v = m := by
  induction m with
  | nil => simp [amGet] at h
  | cons e rest ih =>
      obtain ⟨a, b⟩ := e
      by_cases he : a = k
      · subst he
        simp [amGet] at h
        subst h
        simp [amSet]
      · simp [amGet, he] at h
        simp [amSet, he, ih h]

theorem mem_amSet {α : Type} (m : List (String × α)) (k : String) (v : α) :
    ∀ e ∈ amSet m k v, e = (k, v) ∨ e ∈ m := by
  induction m with
  | nil =>
      intro e he
      simp [amSet] at he
      exact Or.inl he
  | cons a rest ih =>
      intro e he
      by_cases ha : a.1 = k
      · simp [amSet, ha] at he
        rcases he with he | he
        · exact Or.inl he
        · exact Or.inr (List.mem_cons_of_mem a he)
      · simp only [amSet, if_neg ha, List.mem_cons] at he
        rcases he with he | he
        · exact Or.inr (by simp [he])
        · rcases ih e he with h1 | h1
          · exact Or.inl h1
          · exact Or.inr (List.mem_cons_of_mem a h1)

theorem mem_amDelete {α : Type} (m : List (String × α)) (k : String) :
    ∀ e ∈ amDelete m k, e ∈ m := by
  induction m with
  | nil => intro e he; simp [amDelete] at he
  | cons a rest ih =>
      intro e he
      by_cases ha : a.1 = k
      · simp only [amDelete, if_pos ha] at he
        exact List.mem_cons_of_mem a he
      · simp only [amDelete, if_neg ha, List.mem_cons] at he
        rcases he with he | he
        · simp [he]
        · exact List.mem_cons_of_mem a (ih e he)

theorem keys_amDelete_sublist {α : Type} (m : List (String × α)) (k : String) :
    (amDelete m k).Sublist m := by
  induction m with
  | nil => simp [amDelete]
  | cons a rest ih =>
      by_cases ha : a.1 = k
      · simp only [amDelete, if_pos ha]
        exact List.sublist_cons_self a rest
      · simp only [amDelete, if_neg ha]
        exact List.Sublist.cons₂ a ih

theorem keysNodup_amDelete {α : Type} (m : List (String × α)) (k : String)
    (h : keysNodup m) : keysNodup (amDelete m k) := by
  unfold keysNodup at h ⊢
  exact ((keys_amDelete_sublist m k).map Prod.fst).nodup h

theorem keysNodup_amSet {α : Type} (m : List (String × α)) (k : String) (v : α)
    (h : keysNodup m) : keysNodup (amSet m k v) := by
  induction m with
  | nil => simp [amSet, keysNodup]
  | cons e rest ih =>
      unfold keysNodup at h ⊢
      simp only [List.map_cons, List.nodup_cons] at h
      by_cases he : e.1 = k
      · subst he
        simpa [amSet, List.nodup_cons] using h
      · have h2 := ih h.2
        unfold keysNodup at h2
        simp only [amSet, if_neg he, List.map_cons, List.nodup_cons]
        refine ⟨?_, h2⟩
        intro hmem
        rcases List.mem_map.1 hmem with ⟨e2, he2, hfst⟩
        rcases mem_amSet rest k v e2 he2 with h3 | h3
        · exact he (by rw [← hfst, h3])
        · exact h.1 (List.mem_map.2 ⟨e2, h3, hfst⟩)

/-! Credential-store lemmas. -/

theorem findByToken_append_of_some (store l : TokenStore) (t : JwtToken)
    (rec0 : RefreshRecord) (h : findByToken store t = some rec0) :
    findByToken (store ++ l) t = some rec0 := by
  induction store with
  | nil => simp [findByToken] at h
  | cons a rest ih =>
      by_cases ha : a.token = t
      · simp [findByToken, ha] at h ⊢
        exact h
      · simp [findByToken, ha] at h ⊢
        exact ih h

theorem findByToken_revokeRefreshToken (store : TokenStore) (t : JwtToken)
    (rec0 : RefreshRecord) (h : findByToken store t = some rec0) :
    findByToken (revokeRefreshToken store rec0.userId t) t
      = some ⟨rec0.userId, rec0.token, rec0.expiresAt, true⟩ := by
  induction store with
  | nil => simp [findByToken] at h
  | cons a rest ih =>
      by_cases ha : a.token = t
      · simp [findByToken, ha] at h
        subst h
        simp [revokeRefreshToken, ha, findByToken]
      · simp [findByToken, ha] at h
        simp [revokeRefreshToken, ha, findByToken, ih h]

theorem rotateTokens_none_store (st : TokenStore) (n : Nat) (t : JwtToken)
    (h : (rotateTokens st n t).1 = none) : (rotateTokens st n t).2 = st := by
  cases hr : refreshAccessToken st n t with
  | none => simp [rotateTokens, hr]
  | some v =>
      obtain ⟨tok, pl⟩ := v
      simp [rotateTokens, hr] at h

/-- C3: a successful rotation revokes exactly the old record (its
`verifyRefresh` turns invalid at every later time), and a failed rotation
leaves the whole store untouched.  The hypothesis `hu` states the store
well-formedness that every record created by the service satisfies: the
record found for a token carries the same `userId` as the token's
payload. -/
theorem rotate_single_use_aux (store : TokenStore) (now : Nat) (r : JwtToken)
    (rec0 : RefreshRecord) (p : TokenPayload)
    (hv : verifyRefreshToken store now r = some p)
    (hf : findByToken store r = some rec0)
    (hu : rec0.userId = r.payload.userId) :
    (rotateTokens store now r).1.isSome = true
    ∧ (∀ now2, verifyRefreshToken (rotateTokens store now r).2 now2 r = none) := by
  have hp : p = r.payload := by
    unfold verifyRefreshToken at hv
    by_cases hR : isTokenRevoked store r
    · simp [hR] at hv
    · simp [hR, jwtVerify] at hv
      by_cases hc : r.key = Key.refreshSecret ∧ now < r.exp
      · simp [hc] at hv
        exact hv.symm
      · simp [hc] at hv
  have hra : refreshAccessToken store now r
      = some (⟨⟨p.userId, now + accessTokenExpiry⟩, Key.accessSecret,
                now + accessTokenExpiry, now⟩,
              ⟨p.userId, now + accessTokenExpiry⟩) := by
    simp [refreshAccessToken, hv]
  have hustep : p.userId = rec0.userId := by rw [hu, hp]
  have hstore2 : (rotateTokens store now r).2
      = revokeRefreshToken
          (store ++ [⟨p.userId,
              ⟨⟨p.userId, now + accessTokenExpiry⟩, Key.refreshSecret,
                now + refreshTokenExpiry, now⟩,
              now + refreshTokenExpiry, false⟩]) rec0.userId r := by
    simp [rotateTokens, hra, generateTokens, storeRefreshToken, hustep]
  constructor
  · simp [rotateTokens, hra]
  · intro now2
    rw [hstore2]
    have hf2 := findByToken_append_of_some store
      [⟨p.userId,
          ⟨⟨p.userId, now + accessTokenExpiry⟩, Key.refreshSecret,
            now + refreshTokenExpiry, now⟩,
          now + refreshTokenExpiry, false⟩] r rec0 hf
    have hf3 := findByToken_revokeRefreshToken _ r rec0 hf2
    simp [verifyRefreshToken, isTokenRevoked, hf3]

/-! Concrete sample credentials used to evaluate the gate. -/

/-- A valid access token for user u1, issued at time 0. -/
def sampleAccessU1 : JwtToken :=
  ⟨⟨"u1", accessTokenExpiry⟩, Key.accessSecret, accessTokenExpiry, 0⟩

/-- A valid refresh token for user u1, issued at time 0. -/
def sampleRefreshU1 : JwtToken :=
  ⟨⟨"u1", accessTokenExpiry⟩, Key.refreshSecret, refreshTokenExpiry, 0⟩

/-- A valid refresh token for user u2, issued at time 0. -/
def sampleRefreshU2 : JwtToken :=
  ⟨⟨"u2", accessTokenExpiry⟩, Key.refreshSecret, refreshTokenExpiry, 0⟩

/-- A store holding u1's unrevoked refresh record. -/
def sampleStoreU1 : TokenStore := [⟨"u1", sampleRefreshU1, refreshTokenExpiry, false⟩]

/-- A store holding u2's unrevoked refresh record. -/
def sampleStoreU2 : TokenStore := [⟨"u2", sampleRefreshU2, refreshTokenExpiry, false⟩]

/-- A store in which u1's refresh record has been revoked. -/
def sampleRevokedStoreU1 : TokenStore := [⟨"u1", sampleRefreshU1, refreshTokenExpiry, true⟩]

/-- C1 counterexample: a request carrying a valid access token (accepted by
`verifyAccess`) and no refresh token is rejected by the Session Gate —
`validateJWTRequest` early-returns `false` when the refresh cookie is
absent, so the request is not authenticated. -/
theorem accessOnly_request_rejected :
    verifyAccessToken 0 sampleAccessU1 = some ⟨"u1", accessTokenExpiry⟩
    ∧ validateJWTRequest [] 0 (some ⟨some sampleAccessU1, none⟩)
        = (false, none, [], []) := by
  constructor
  · rfl
  · rfl

/-- C1 (amended): when BOTH cookies are present and `verifyAccess` accepts
the access token, the Session Gate resolves the subject from the access
token with no rotation: the store is unchanged and no cookie update is
emitted. -/
theorem validAccess_resolves_without_rotation (store : TokenStore) (now : Nat)
    (a r : JwtToken) (p : TokenPayload) (hv : verifyAccessToken now a = some p) :
    validateJWTRequest store now (some ⟨some a, some r⟩) = (true, some p, store, []) := by
  simp [validateJWTRequest, verifyAndRefreshTokens, hv]

/-- Witness for C1 (amended) at concrete inputs. -/
theorem validAccess_resolves_without_rotation_witness :
    validateJWTRequest sampleStoreU1 0 (some ⟨some sampleAccessU1, some sampleRefreshU1⟩)
      = (true, some ⟨"u1", accessTokenExpiry⟩, sampleStoreU1, []) :=
  validAccess_resolves_without_rotation sampleStoreU1 0 sampleAccessU1 sampleRefreshU1
    ⟨"u1", accessTokenExpiry⟩ (by decide)

/-- C2 counterexample: both tokens supplied, the access token independently
valid, the refresh token valid for a DIFFERENT subject — yet the Session
Gate authenticates the request with the access token's subject instead of
treating it as invalid (`verifyAndRefreshTokens` never compares the two
subjects). -/
theorem mismatched_subjects_still_authenticated :
    verifyAccessToken 0 sampleAccessU1 = some ⟨"u1", accessTokenExpiry⟩
    ∧ verifyRefreshToken sampleStoreU2 0 sampleRefreshU2 = some ⟨"u2", accessTokenExpiry⟩
    ∧ "u1" ≠ "u2"
    ∧ validateJWTRequest sampleStoreU2 0 (some ⟨some sampleAccessU1, some sampleRefreshU2⟩)
        = (true, some ⟨"u1", accessTokenExpiry⟩, sampleStoreU2, []) := by
  refine ⟨rfl, by decide, by decide, rfl⟩

/-- C2 (amended): the subject-mismatch rejection lives in the `validateJWT`
helper (used by a handful of routes), not in the Session Gate middleware:
when both tokens are supplied, the access token is valid, and the two
subjects differ, `validateJWT` returns invalid. -/
theorem validateJWT_rejects_subject_mismatch (store : TokenStore) (now : Nat)
    (a r : JwtToken) (pa pr : TokenPayload)
    (hva : verifyAccessToken now a = some pa)
    (hvr : verifyRefreshToken store now r = some pr)
    (hne : pa.userId ≠ pr.userId) :
    validateJWT store now (some a) (some r) = none := by
  simp [validateJWT, hva, hvr, hne]

/-- Witness for C2 (amended) at concrete inputs. -/
theorem validateJWT_rejects_subject_mismatch_witness :
    validateJWT sampleStoreU2 0 (some sampleAccessU1) (some sampleRefreshU2) = none :=
  validateJWT_rejects_subject_mismatch sampleStoreU2 0 sampleAccessU1 sampleRefreshU2
    ⟨"u1", accessTokenExpiry⟩ ⟨"u2", accessTokenExpiry⟩ (by decide) (by decide) (by decide)

/-- C3: for a refresh token valid at call time, rotation succeeds and
leaves the old token's record revoked — `verifyRefresh` of the same token
returns invalid at every later time — and a failed rotation leaves the
store (in particular the old record) entirely untouched. -/
theorem rotate_revokes_exactly_on_success (store : TokenStore) (now : Nat)
    (r : JwtToken) (rec0 : RefreshRecord) (p : TokenPayload)
    (hv : verifyRefreshToken store now r = some p)
    (hf : findByToken store r = some rec0)
    (hu : rec0.userId = r.payload.userId) :
    ((rotateTokens store now r).1.isSome = true
      ∧ ∀ now2, verifyRefreshToken (rotateTokens store now r).2 now2 r = none)
    ∧ ∀ (st : TokenStore) (n : Nat) (t : JwtToken),
        (rotateTokens st n t).1 = none → (rotateTokens st n t).2 = st :=
  ⟨rotate_single_use_aux store now r rec0 p hv hf hu,
   fun st n t h => rotateTokens_none_store st n t h⟩

/-- Witness for C3 at concrete inputs: u1's valid refresh token is rotated
at time 0 and its reuse at time 1 is rejected. -/
theorem rotate_revokes_exactly_on_success_witness :
    (rotateTokens sampleStoreU1 0 sampleRefreshU1).1.isSome = true
    ∧ verifyRefreshToken (rotateTokens sampleStoreU1 0 sampleRefreshU1).2 1 sampleRefreshU1
        = none :=
  ⟨(rotate_revokes_exactly_on_success sampleStoreU1 0 sampleRefreshU1
      ⟨"u1", sampleRefreshU1, refreshTokenExpiry, false⟩ ⟨"u1", accessTokenExpiry⟩
      (by decide) (by decide) (by decide)).1.1,
   (rotate_revokes_exactly_on_success sampleStoreU1 0 sampleRefreshU1
      ⟨"u1", sampleRefreshU1, refreshTokenExpiry, false⟩ ⟨"u1", accessTokenExpiry⟩
      (by decide) (by decide) (by decide)).1.2 1⟩

/-- C4 counterexample: access token absent and the refresh token's rotation
fails (record revoked) — the middleware does terminate the request with
`Unauthorized`, but the response carries NO cookie commands: neither
credential cookie is cleared (clearing happens only in the unreachable
exception branch of `verifyAndRefreshTokens`). -/
theorem unauthorized_without_cookie_clear :
    (rotateTokens sampleRevokedStoreU1 0 sampleRefreshU1).1 = none
    ∧ authMiddleware sampleRevokedStoreU1 0 (some ⟨none, some sampleRefreshU1⟩)
        = (MiddlewareOutcome.unauthorized, sampleRevokedStoreU1, []) := by
  refine ⟨by decide, rfl⟩

/-- C4 (amended): whenever access verification fails (token absent or
invalid) and rotation of the refresh cookie fails, the Session Gate
terminates the request with `Unauthorized` and leaves the credential
cookies untouched — it emits no cookie commands at all, and the store is
unchanged. -/
theorem gate_unauthorized_leaves_cookies (store : TokenStore) (now : Nat)
    (ca cr : Option JwtToken)
    (h1 : (match ca with | some a => verifyAccessToken now a | none => none)
            = (none : Option TokenPayload))
    (h2 : ∀ r, cr = some r → (rotateTokens store now r).1 = none) :
    authMiddleware store now (some ⟨ca, cr⟩)
      = (MiddlewareOutcome.unauthorized, store, []) := by
  cases cr with
  | none =>
      cases ca with
      | none => simp [authMiddleware, validateJWTRequest]
      | some a => simp [authMiddleware, validateJWTRequest]
  | some r =>
      have h3 := h2 r rfl
      have h4 := rotateTokens_none_store store now r h3
      have hrot : rotateTokens store now r = (none, store) := Prod.ext_iff.2 ⟨h3, h4⟩
      cases ca with
      | none =>
          simp [authMiddleware, validateJWTRequest, verifyAndRefreshTokens, hrot]
      | some a =>
          simp only [] at h1
          simp [authMiddleware, validateJWTRequest, verifyAndRefreshTokens, h1, hrot]

/-- Witness for C4 (amended) at concrete inputs. -/
theorem gate_unauthorized_leaves_cookies_witness :
    authMiddleware sampleRevokedStoreU1 0 (some ⟨none, some sampleRefreshU1⟩)
      = (MiddlewareOutcome.unauthorized, sampleRevokedStoreU1, []) :=
  gate_unauthorized_leaves_cookies sampleRevokedStoreU1 0 none (some sampleRefreshU1)
    (by decide) (by intro r hr; cases hr; decide)

/-! Registry support lemmas. -/

theorem amGet_mem {α : Type} (m : List (String × α)) (k : String) (v : α)
    (h : amGet m k = some v) : (k, v) ∈ m := by
  induction m with
  | nil => simp [amGet] at h
  | cons e rest ih =>
      obtain ⟨a, b⟩ := e
      by_cases ha : a = k
      · subst ha
        simp [amGet] at h
        subst h
        simp
      · simp [amGet, ha] at h
        exact List.mem_cons_of_mem _ (ih h)

theorem setAdd_ne_nil (s : List SSEConnection) (c : SSEConnection) :
    setAdd s c ≠ [] := by
  unfold setAdd
  by_cases h : c ∈ s
  · simp [h]
    intro hnil
    subst hnil
    simp at h
  · simp [h]

theorem mem_setAdd_self (s : List SSEConnection) (c : SSEConnection) :
    c ∈ setAdd s c := by
  unfold setAdd
  by_cases h : c ∈ s <;> simp [h]

theorem mem_setAdd_of_mem (s : List SSEConnection) (c x : SSEConnection)
    (h : x ∈ s) : x ∈ setAdd s c := by
  unfold setAdd
  by_cases hc : c ∈ s <;> simp [hc, h]

theorem setAdd_nodup (s : List SSEConnection) (c : SSEConnection)
    (h : s.Nodup) : (setAdd s c).Nodup := by
  unfold setAdd
  by_cases hc : c ∈ s
  · simp [hc, h]
  · simp [hc, List.nodup_append, h, hc]

theorem broadcastSweep_delivered (subs : List SSEConnection) (msg : SSEMessage) :
    (broadcastSweep subs msg).1.map Prod.fst
      = subs.filter (fun c => sendSSEMessage c msg) := by
  induction subs with
  | nil => simp [broadcastSweep]
  | cons c rest ih =>
      by_cases h : sendSSEMessage c msg
      · simp [broadcastSweep, h, List.filter_cons, ih]
      · simp only [Bool.not_eq_true] at h
        simp [broadcastSweep, h, List.filter_cons, ih]

theorem broadcastSweep_toRemove (subs : List SSEConnection) (msg : SSEMessage) :
    (broadcastSweep subs msg).2
      = subs.filter (fun c => !(sendSSEMessage c msg)) := by
  induction subs with
  | nil => simp [broadcastSweep]
  | cons c rest ih =>
      by_cases h : sendSSEMessage c msg
      · simp [broadcastSweep, h, List.filter_cons, ih]
      · simp only [Bool.not_eq_true] at h
        simp [broadcastSweep, h, List.filter_cons, ih]

theorem mem_foldl_erase (rem : List SSEConnection) :
    ∀ (subs : List SSEConnection), subs.Nodup → ∀ c,
      (c ∈ List.foldl (fun s x => s.erase x) subs rem ↔ c ∈ subs ∧ c ∉ rem) := by
  induction rem with
  | nil => intro subs _ c; simp
  | cons r rest ih =>
      intro subs hs c
      simp only [List.foldl_cons]
      rw [ih (subs.erase r) (hs.erase r) c]
      constructor
      · rintro ⟨h1, h2⟩
        have h3 : c ∈ subs := (subs.erase_sublist r).mem h1
        have h4 : c ≠ r := by
          intro hcr
          subst hcr
          exact hs.not_mem_erase h1
        exact ⟨h3, by simp [h2, h4]⟩
      · rintro ⟨h1, h2⟩
        simp only [List.mem_cons, not_or] at h2
        exact ⟨(List.mem_erase_of_ne h2.1).2 h1, h2.2⟩

theorem nodup_foldl_erase (rem : List SSEConnection) :
    ∀ (subs : List SSEConnection), subs.Nodup →
      (List.foldl (fun s x => s.erase x) subs rem).Nodup := by
  induction rem with
  | nil => intro subs hs; simpa using hs
  | cons r rest ih =>
      intro subs hs
      simp only [List.foldl_cons]
      exact ih (subs.erase r) (hs.erase r)

theorem amGet_subscribeChannel_self (m : ChannelSubs) (ch : String)
    (sub : SSEConnection) :
    ∃ s, amGet (subscribeChannel m ch sub) ch = some s ∧ sub ∈ s := by
  unfold subscribeChannel
  cases h : amGet m ch with
  | none => exact ⟨setAdd [] sub, amGet_amSet_self m ch _, mem_setAdd_self [] sub⟩
  | some s => exact ⟨setAdd s sub, amGet_amSet_self m ch _, mem_setAdd_self s sub⟩

theorem amGet_subscribeChannel_ne (m : ChannelSubs) (ch ch2 : String)
    (sub : SSEConnection) (h : ch2 ≠ ch) :
    amGet (subscribeChannel m ch2 sub) ch = amGet m ch := by
  unfold subscribeChannel
  cases hg : amGet m ch2 with
  | none => exact amGet_amSet_ne m ch2 ch _ h
  | some s => exact amGet_amSet_ne m ch2 ch _ h

theorem subscribeChannel_preserves_mem (m : ChannelSubs) (ch ch2 : String)
    (sub x : SSEConnection) (h : ∃ s, amGet m ch = some s ∧ x ∈ s) :
    ∃ s, amGet (subscribeChannel m ch2 sub) ch = some s ∧ x ∈ s := by
  obtain ⟨s, hg, hx⟩ := h
  by_cases hc : ch2 = ch
  · subst hc
    unfold subscribeChannel
    rw [hg]
    exact ⟨setAdd s sub, amGet_amSet_self m ch2 _, mem_setAdd_of_mem s sub x hx⟩
  · rw [amGet_subscribeChannel_ne m ch ch2 sub hc]
    exact ⟨s, hg, hx⟩

theorem amGet_cleanupChannel_ne (m : ChannelSubs) (ch ch2 : String)
    (sub : SSEConnection) (h : ch2 ≠ ch) :
    amGet (cleanupChannel m ch2 sub) ch = amGet m ch := by
  unfold cleanupChannel
  cases hg : amGet m ch2 with
  | none => rfl
  | some s =>
      by_cases he : (s.erase sub).isEmpty
      · simp only [he, if_true]
        exact amGet_amDelete_ne m ch2 ch h
      · simp only [he, if_false]
        exact amGet_amSet_ne m ch2 ch _ h

theorem cleanupChannel_preserves_mem (m : ChannelSubs) (ch ch2 : String)
    (sub x : SSEConnection) (hne : x ≠ sub)
    (h : ∃ s, amGet m ch = some s ∧ x ∈ s) :
    ∃ s, amGet (cleanupChannel m ch2 sub) ch = some s ∧ x ∈ s := by
  obtain ⟨s, hg, hx⟩ := h
  by_cases hc : ch2 = ch
  · subst hc
    unfold cleanupChannel
    rw [hg]
    have hx2 : x ∈ s.erase sub := (List.mem_erase_of_ne hne).2 hx
    have hne2 : ¬(s.erase sub).isEmpty := by
      cases he : s.erase sub with
      | nil => rw [he] at hx2; simp at hx2
      | cons a l => simp [he]
    simp only [hne2, if_false]
    exact ⟨s.erase sub, amGet_amSet_self m ch2 _, hx2⟩
  · rw [amGet_cleanupChannel_ne m ch ch2 sub hc]
    exact ⟨s, hg, hx⟩

/-! Preservation of the registry well-formedness predicates. -/

theorem noEmpty_removeUpdate (m : ChannelSubs) (ch : String)
    (subs1 : List SSEConnection) (h : noEmpty m) :
    noEmpty (if subs1.isEmpty then amDelete m ch else amSet m ch subs1) := by
  by_cases he : subs1.isEmpty
  · simp only [he, if_true]
    intro e hee
    exact h e (mem_amDelete m ch e hee)
  · simp only [he, if_false]
    intro e hee
    rcases mem_amSet m ch subs1 e hee with h1 | h1
    · subst h1
      simpa [List.isEmpty_iff] using he
    · exact h e h1

theorem noEmpty_subscribeChannel (m : ChannelSubs) (ch : String)
    (sub : SSEConnection) (h : noEmpty m) : noEmpty (subscribeChannel m ch sub) := by
  unfold subscribeChannel
  cases hg : amGet m ch with
  | none =>
      intro e he
      rcases mem_amSet m ch _ e he with h1 | h1
      · subst h1
        exact setAdd_ne_nil [] sub
      · exact h e h1
  | some s =>
      intro e he
      rcases mem_amSet m ch _ e he with h1 | h1
      · subst h1
        exact setAdd_ne_nil s sub
      · exact h e h1

theorem noEmpty_cleanupChannel (m : ChannelSubs) (ch : String)
    (sub : SSEConnection) (h : noEmpty m) : noEmpty (cleanupChannel m ch sub) := by
  unfold cleanupChannel
  cases hg : amGet m ch with
  | none => exact h
  | some s => exact noEmpty_removeUpdate m ch (s.erase sub) h

theorem noEmpty_broadcast (m : ChannelSubs) (ch : String) (data : String)
    (h : noEmpty m) : noEmpty (broadcastMessageToChannel m ch data).1 := by
  unfold broadcastMessageToChannel
  cases hg : amGet m ch with
  | none => exact h
  | some subs =>
      by_cases hempty : subs.isEmpty
      · simp only [hempty, if_true]
        exact h
      · simp only [hempty, if_false]
        exact noEmpty_removeUpdate m ch _ h

theorem noEmpty_cleanupDead (m : ChannelSubs) (ch : String)
    (h : noEmpty m) : noEmpty (cleanupDeadConnections m ch).1 := by
  unfold cleanupDeadConnections
  cases hg : amGet m ch with
  | none => exact h
  | some connections => exact noEmpty_removeUpdate m ch _ h

theorem noEmpty_foldl_subscribe (chs : List String) :
    ∀ (m : ChannelSubs) (sub : SSEConnection), noEmpty m →
      noEmpty (chs.foldl (fun m2 ch => subscribeChannel m2 ch sub) m) := by
  induction chs with
  | nil => intro m sub h; simpa using h
  | cons ch rest ih =>
      intro m sub h
      simp only [List.foldl_cons]
      exact ih _ sub (noEmpty_subscribeChannel m ch sub h)

theorem noEmpty_foldl_cleanup (chs : List String) :
    ∀ (m : ChannelSubs) (sub : SSEConnection), noEmpty m →
      noEmpty (chs.foldl (fun m2 ch => cleanupChannel m2 ch sub) m) := by
  induction chs with
  | nil => intro m sub h; simpa using h
  | cons ch rest ih =>
      intro m sub h
      simp only [List.foldl_cons]
      exact ih _ sub (noEmpty_cleanupChannel m ch sub h)

/-- C7: every registry operation preserves the no-empty-set invariant — an
entry whose connection set becomes empty is deleted from the map within
the same operation. -/
theorem registry_no_empty_sets (m : ChannelSubs) (st : RegistryState)
    (ch u data : String) (chs : List String) (sub : SSEConnection)
    (h : noEmpty m) (hst : noEmpty st.channelSubs) :
    noEmpty (subscribeChannel m ch sub)
    ∧ noEmpty (cleanupChannel m ch sub)
    ∧ noEmpty (broadcastMessageToChannel m ch data).1
    ∧ noEmpty (cleanupDeadConnections m ch).1
    ∧ noEmpty (subscribeAllChannels st u chs sub).channelSubs
    ∧ noEmpty (cleanupAllChannels st u chs sub).channelSubs := by
  refine ⟨noEmpty_subscribeChannel m ch sub h,
          noEmpty_cleanupChannel m ch sub h,
          noEmpty_broadcast m ch data h,
          noEmpty_cleanupDead m ch h, ?_, ?_⟩
  · unfold subscribeAllChannels
    by_cases hc : chs.isEmpty
    · simp only [hc, if_true]
      exact hst
    · simp only [hc, if_false]
      exact noEmpty_foldl_subscribe chs st.channelSubs sub hst
  · unfold cleanupAllChannels
    exact noEmpty_foldl_cleanup chs st.channelSubs sub hst

/-- Witness for C7 at a concrete registry state. -/
theorem registry_no_empty_sets_witness :
    noEmpty (subscribeChannel [("c1", [⟨1, ⟨false, true⟩, "u1"⟩])] "c2" ⟨2, ⟨false, true⟩, "u2"⟩)
    ∧ noEmpty (cleanupChannel [("c1", [⟨1, ⟨false, true⟩, "u1"⟩])] "c2" ⟨2, ⟨false, true⟩, "u2"⟩)
    ∧ noEmpty (broadcastMessageToChannel [("c1", [⟨1, ⟨false, true⟩, "u1"⟩])] "c2" "hi").1
    ∧ noEmpty (cleanupDeadConnections [("c1", [⟨1, ⟨false, true⟩, "u1"⟩])] "c2").1
    ∧ noEmpty (subscribeAllChannels ⟨[("c1", [⟨1, ⟨false, true⟩, "u1"⟩])], []⟩ "u2" ["c1", "c3"] ⟨2, ⟨false, true⟩, "u2"⟩).channelSubs
    ∧ noEmpty (cleanupAllChannels ⟨[("c1", [⟨1, ⟨false, true⟩, "u1"⟩])], []⟩ "u2" ["c1", "c3"] ⟨2, ⟨false, true⟩, "u2"⟩).channelSubs :=
  registry_no_empty_sets [("c1", [⟨1, ⟨false, true⟩, "u1"⟩])]
    ⟨[("c1", [⟨1, ⟨false, true⟩, "u1"⟩])], []⟩ "c2" "u2" "hi" ["c1", "c3"]
    ⟨2, ⟨false, true⟩, "u2"⟩ (by decide) (by decide)

theorem setsNodup_amSet (m : ChannelSubs) (ch : String) (v : List SSEConnection)
    (h : setsNodup m) (hv : v.Nodup) : setsNodup (amSet m ch v) := by
  intro e he
  rcases mem_amSet m ch v e he with h1 | h1
  · subst h1
    exact hv
  · exact h e h1

theorem setsNodup_amDelete (m : ChannelSubs) (ch : String)
    (h : setsNodup m) : setsNodup (amDelete m ch) := by
  intro e he
  exact h e (mem_amDelete m ch e he)

theorem setsNodup_subscribeChannel (m : ChannelSubs) (ch : String)
    (sub : SSEConnection) (h : setsNodup m) : setsNodup (subscribeChannel m ch sub) := by
  unfold subscribeChannel
  cases hg : amGet m ch with
  | none => exact setsNodup_amSet m ch _ h (setAdd_nodup [] sub List.nodup_nil)
  | some s =>
      exact setsNodup_amSet m ch _ h (setAdd_nodup s sub (h (ch, s) (amGet_mem m ch s hg)))

theorem setsNodup_cleanupChannel (m : ChannelSubs) (ch : String)
    (sub : SSEConnection) (h : setsNodup m) : setsNodup (cleanupChannel m ch sub) := by
  unfold cleanupChannel
  cases hg : amGet m ch with
  | none => exact h
  | some s =>
      by_cases he : (s.erase sub).isEmpty
      · simp only [he, if_true]
        exact setsNodup_amDelete m ch h
      · simp only [he, if_false]
        exact setsNodup_amSet m ch _ h ((h (ch, s) (amGet_mem m ch s hg)).erase sub)

theorem keysNodup_subscribeChannel (m : ChannelSubs) (ch : String)
    (sub : SSEConnection) (h : keysNodup m) : keysNodup (subscribeChannel m ch sub) := by
  unfold subscribeChannel
  cases hg : amGet m ch with
  | none => exact keysNodup_amSet m ch _ h
  | some s => exact keysNodup_amSet m ch _ h

theorem keysNodup_cleanupChannel (m : ChannelSubs) (ch : String)
    (sub : SSEConnection) (h : keysNodup m) : keysNodup (cleanupChannel m ch sub) := by
  unfold cleanupChannel
  cases hg : amGet m ch with
  | none => exact h
  | some s =>
      by_cases he : (s.erase sub).isEmpty
      · simp only [he, if_true]
        exact keysNodup_amDelete m ch h
      · simp only [he, if_false]
        exact keysNodup_amSet m ch _ h

/-! Broadcast characterization. -/

theorem broadcast_deliveries (m : ChannelSubs) (ch data : String)
    (subs : List SSEConnection) (hget : amGet m ch = some subs) (hne : subs ≠ []) :
    (broadcastMessageToChannel m ch data).2.map Prod.fst
      = subs.filter (fun c => sendSSEMessage c (broadcastEnvelope ch data)) := by
  unfold broadcastMessageToChannel
  rw [hget]
  have hempty : subs.isEmpty = false := by
    cases subs with
    | nil => simp at hne
    | cons a l => rfl
  simp only [hempty, Bool.false_eq_true, if_false]
  exact broadcastSweep_delivered subs _

theorem broadcast_deliveries_of_none (m : ChannelSubs) (ch data : String)
    (hget : amGet m ch = none) :
    (broadcastMessageToChannel m ch data).2 = [] := by
  unfold broadcastMessageToChannel
  rw [hget]

theorem broadcast_remaining (m : ChannelSubs) (ch data : String)
    (subs : List SSEConnection) (hget : amGet m ch = some subs) (hne : subs ≠ [])
    (hnd : subs.Nodup) (hk : keysNodup m) :
    ∀ c ∈ subs, sendSSEMessage c (broadcastEnvelope ch data) = false →
      ∀ s1, amGet (broadcastMessageToChannel m ch data).1 ch = some s1 → c ∉ s1 := by
  intro c hc hfail s1 hs1
  unfold broadcastMessageToChannel at hs1
  rw [hget] at hs1
  have hempty : subs.isEmpty = false := by
    cases subs with
    | nil => simp at hne
    | cons a l => rfl
  simp only [hempty, Bool.false_eq_true, if_false] at hs1
  by_cases hse : ((broadcastSweep subs (broadcastEnvelope ch data)).2.foldl
      (fun s c2 => s.erase c2) subs).isEmpty
  · rw [if_pos hse] at hs1
    rw [amGet_amDelete_self m ch hk] at hs1
    exact absurd hs1 (by simp)
  · rw [if_neg hse] at hs1
    rw [amGet_amSet_self] at hs1
    injection hs1 with hinj
    subst hinj
    intro hmem
    have h2 := (mem_foldl_erase _ subs hnd c).1 hmem
    apply h2.2
    rw [broadcastSweep_toRemove]
    exact List.mem_filter.2 ⟨hc, by simp [hfail]⟩

/-- C5: a connection with a writable transport that subscribes to a
conversation receives a broadcast to that conversation exactly once, and
after its cleanup the same broadcast delivers nothing to it. -/
theorem subscribe_broadcast_roundtrip (m : ChannelSubs) (ch data : String)
    (sub : SSEConnection) (hk : keysNodup m) (hs : setsNodup m)
    (hlive : sub.res.writableEnded = false) (hok : sub.res.writeOk = true) :
    ((broadcastMessageToChannel (subscribeChannel m ch sub) ch data).2.map
        Prod.fst).count sub = 1
    ∧ ((broadcastMessageToChannel
          (cleanupChannel (subscribeChannel m ch sub) ch sub) ch data).2.map
        Prod.fst).count sub = 0 := by
  have hsend : ∀ msg, sendSSEMessage sub msg = true := by
    intro msg
    simp [sendSSEMessage, resWrite, hlive, hok]
  obtain ⟨s1, hget1, hmem1⟩ := amGet_subscribeChannel_self m ch sub
  have hnd1 : s1.Nodup :=
    setsNodup_subscribeChannel m ch sub hs (ch, s1) (amGet_mem _ ch s1 hget1)
  have hne1 : s1 ≠ [] := by
    intro hnil
    rw [hnil] at hmem1
    simp at hmem1
  have hk1 : keysNodup (subscribeChannel m ch sub) :=
    keysNodup_subscribeChannel m ch sub hk
  constructor
  · rw [broadcast_deliveries _ ch data s1 hget1 hne1]
    refine List.count_eq_one_of_mem (hnd1.filter _) ?_
    simp only [List.mem_filter]
    exact ⟨hmem1, hsend _⟩
  · unfold cleanupChannel
    rw [hget1]
    by_cases he : (s1.erase sub).isEmpty
    · simp only [he, if_true]
      rw [broadcast_deliveries_of_none _ ch data (amGet_amDelete_self _ ch hk1)]
      simp
    · rw [Bool.not_eq_true] at he
      simp only [he, Bool.false_eq_true, if_false]
      have hget2 : amGet (amSet (subscribeChannel m ch sub) ch (s1.erase sub)) ch
          = some (s1.erase sub) := amGet_amSet_self _ ch _
      have hne2 : s1.erase sub ≠ [] := by
        intro hnil
        rw [hnil] at he
        simp at he
      rw [broadcast_deliveries _ ch data _ hget2 hne2]
      refine List.count_eq_zero.2 ?_
      intro hmem
      have := (List.mem_filter.1 hmem).1
      exact hnd1.not_mem_erase this

/-- Witness for C5 at a concrete registry. -/
theorem subscribe_broadcast_roundtrip_witness :
    ((broadcastMessageToChannel
        (subscribeChannel [("c2", [⟨7, ⟨false, true⟩, "u7"⟩])] "c1" ⟨1, ⟨false, true⟩, "u1"⟩)
        "c1" "hello").2.map Prod.fst).count ⟨1, ⟨false, true⟩, "u1"⟩ = 1
    ∧ ((broadcastMessageToChannel
          (cleanupChannel
            (subscribeChannel [("c2", [⟨7, ⟨false, true⟩, "u7"⟩])] "c1" ⟨1, ⟨false, true⟩, "u1"⟩)
            "c1" ⟨1, ⟨false, true⟩, "u1"⟩)
          "c1" "hello").2.map Prod.fst).count ⟨1, ⟨false, true⟩, "u1"⟩ = 0 :=
  subscribe_broadcast_roundtrip [("c2", [⟨7, ⟨false, true⟩, "u7"⟩])] "c1" "hello"
    ⟨1, ⟨false, true⟩, "u1"⟩ (by decide) (by decide) (by decide) (by decide)

/-- C6: during a broadcast every subscribed connection is attempted
independently — the deliveries are exactly the writable subscribers, in
set order, regardless of any failing connection — and every failed
connection is absent from the conversation's set after the sweep.  The
operation is total: it returns normally, surfacing no error. -/
theorem broadcast_failure_isolated (m : ChannelSubs) (ch data : String)
    (subs : List SSEConnection) (hk : keysNodup m) (hs : setsNodup m)
    (hget : amGet m ch = some subs) (hne : subs ≠ []) :
    ((broadcastMessageToChannel m ch data).2.map Prod.fst
        = subs.filter (fun c => sendSSEMessage c (broadcastEnvelope ch data)))
    ∧ (∀ c ∈ subs, sendSSEMessage c (broadcastEnvelope ch data) = false →
        ∀ s1, amGet (broadcastMessageToChannel m ch data).1 ch = some s1 → c ∉ s1) := by
  refine ⟨broadcast_deliveries m ch data subs hget hne, ?_⟩
  exact broadcast_remaining m ch data subs hget hne (hs (ch, subs) (amGet_mem m ch subs hget)) hk

/-- Witness for C6: two connections, one with a broken transport; the live
one still receives the message and the broken one is removed. -/
theorem broadcast_failure_isolated_witness :
    ((broadcastMessageToChannel
        [("c1", [⟨1, ⟨true, false⟩, "u1"⟩, ⟨2, ⟨false, true⟩, "u2"⟩])] "c1" "m").2.map Prod.fst
        = [⟨1, ⟨true, false⟩, "u1"⟩, ⟨2, ⟨false, true⟩, "u2"⟩].filter
            (fun c => sendSSEMessage c (broadcastEnvelope "c1" "m")))
    ∧ (∀ c ∈ [(⟨1, ⟨true, false⟩, "u1"⟩ : SSEConnection), ⟨2, ⟨false, true⟩, "u2"⟩],
        sendSSEMessage c (broadcastEnvelope "c1" "m") = false →
        ∀ s1, amGet (broadcastMessageToChannel
            [("c1", [⟨1, ⟨true, false⟩, "u1"⟩, ⟨2, ⟨false, true⟩, "u2"⟩])] "c1" "m").1 "c1"
          = some s1 → c ∉ s1) :=
  broadcast_failure_isolated
    [("c1", [⟨1, ⟨true, false⟩, "u1"⟩, ⟨2, ⟨false, true⟩, "u2"⟩])] "c1" "m"
    [⟨1, ⟨true, false⟩, "u1"⟩, ⟨2, ⟨false, true⟩, "u2"⟩]
    (by decide) (by decide) (by decide) (by decide)

/-! Idempotence of cleanup. -/

theorem cleanupChannel_idem (m : ChannelSubs) (ch : String) (sub : SSEConnection)
    (hk : keysNodup m) (hs : setsNodup m) :
    cleanupChannel (cleanupChannel m ch sub) ch sub = cleanupChannel m ch sub := by
  cases hg : amGet m ch with
  | none =>
      have h1 : cleanupChannel m ch sub = m := by simp [cleanupChannel, hg]
      rw [h1, h1]
  | some s =>
      have hsN : s.Nodup := hs (ch, s) (amGet_mem m ch s hg)
      by_cases he : (s.erase sub).isEmpty
      · have h1 : cleanupChannel m ch sub = amDelete m ch := by
          simp [cleanupChannel, hg, he]
        rw [h1]
        simp [cleanupChannel, amGet_amDelete_self m ch hk]
      · rw [Bool.not_eq_true] at he
        have h1 : cleanupChannel m ch sub = amSet m ch (s.erase sub) := by
          simp [cleanupChannel, hg, he]
        rw [h1]
        have hnm : sub ∉ s.erase sub := hsN.not_mem_erase
        simp [cleanupChannel, amGet_amSet_self, List.erase_of_not_mem hnm, he,
          amSet_amSet]

theorem cleanup_subFree_self (m : ChannelSubs) (ch : String) (sub : SSEConnection)
    (hk : keysNodup m) (hs : setsNodup m) :
    ∀ s, amGet (cleanupChannel m ch sub) ch = some s → sub ∉ s := by
  intro s hgets
  cases hg : amGet m ch with
  | none =>
      rw [show cleanupChannel m ch sub = m from by simp [cleanupChannel, hg]] at hgets
      rw [hg] at hgets
      cases hgets
  | some s0 =>
      have hs0 : s0.Nodup := hs (ch, s0) (amGet_mem m ch s0 hg)
      by_cases he : (s0.erase sub).isEmpty
      · rw [show cleanupChannel m ch sub = amDelete m ch from by
          simp [cleanupChannel, hg, he]] at hgets
        rw [amGet_amDelete_self m ch hk] at hgets
        cases hgets
      · rw [Bool.not_eq_true] at he
        rw [show cleanupChannel m ch sub = amSet m ch (s0.erase sub) from by
          simp [cleanupChannel, hg, he]] at hgets
        rw [amGet_amSet_self] at hgets
        injection hgets with h
        subst h
        exact hs0.not_mem_erase

theorem cleanup_noop (m : ChannelSubs) (ch : String) (sub : SSEConnection)
    (hne : noEmpty m) (hf : ∀ s, amGet m ch = some s → sub ∉ s) :
    cleanupChannel m ch sub = m := by
  cases hg : amGet m ch with
  | none => simp [cleanupChannel, hg]
  | some s =>
      have hnm : sub ∉ s := hf s hg
      have hse : s.erase sub = s := List.erase_of_not_mem hnm
      have hsnil : s ≠ [] := hne (ch, s) (amGet_mem m ch s hg)
      have hie : (s.erase sub).isEmpty = false := by
        rw [hse]
        cases s with
        | nil => exact absurd rfl hsnil
        | cons a l => rfl
      have h2 : amSet m ch (s.erase sub) = m := by
        rw [hse]
        exact amSet_self_of_amGet m ch s hg
      simp [cleanupChannel, hg, hie, h2]

theorem cleanup_preserves_subFree (m : ChannelSubs) (ch ch2 : String)
    (sub : SSEConnection) (hk : keysNodup m) (hs : setsNodup m)
    (hf : ∀ s, amGet m ch = some s → sub ∉ s) :
    ∀ s, amGet (cleanupChannel m ch2 sub) ch = some s → sub ∉ s := by
  by_cases hcc : ch2 = ch
  · subst hcc
    exact cleanup_subFree_self m ch2 sub hk hs
  · intro s hg
    rw [amGet_cleanupChannel_ne m ch ch2 sub hcc] at hg
    exact hf s hg

theorem keysNodup_foldl_cleanup (chs : List String) :
    ∀ (m : ChannelSubs) (sub : SSEConnection), keysNodup m →
      keysNodup (chs.foldl (fun m2 c => cleanupChannel m2 c sub) m) := by
  induction chs with
  | nil => intro m sub h; simpa using h
  | cons c0 rest ih =>
      intro m sub h
      simp only [List.foldl_cons]
      exact ih _ sub (keysNodup_cleanupChannel m c0 sub h)

theorem setsNodup_foldl_cleanup (chs : List String) :
    ∀ (m : ChannelSubs) (sub : SSEConnection), setsNodup m →
      setsNodup (chs.foldl (fun m2 c => cleanupChannel m2 c sub) m) := by
  induction chs with
  | nil => intro m sub h; simpa using h
  | cons c0 rest ih =>
      intro m sub h
      simp only [List.foldl_cons]
      exact ih _ sub (setsNodup_cleanupChannel m c0 sub h)

theorem subFree_preserved_foldl (chs : List String) :
    ∀ (m : ChannelSubs) (sub : SSEConnection) (ch : String),
      keysNodup m → setsNodup m →
      (∀ s, amGet m ch = some s → sub ∉ s) →
      ∀ s, amGet (chs.foldl (fun m2 c => cleanupChannel m2 c sub) m) ch = some s →
        sub ∉ s := by
  induction chs with
  | nil => intro m sub ch _ _ hf; simpa using hf
  | cons c0 rest ih =>
      intro m sub ch hk hs hf
      simp only [List.foldl_cons]
      exact ih _ sub ch (keysNodup_cleanupChannel m c0 sub hk)
        (setsNodup_cleanupChannel m c0 sub hs)
        (cleanup_preserves_subFree m ch c0 sub hk hs hf)

theorem subFree_foldl_cleanup (chs : List String) :
    ∀ (m : ChannelSubs) (sub : SSEConnection), keysNodup m → setsNodup m →
      ∀ ch ∈ chs, ∀ s,
        amGet (chs.foldl (fun m2 c => cleanupChannel m2 c sub) m) ch = some s →
          sub ∉ s := by
  induction chs with
  | nil => intro m sub _ _ ch hch; simp at hch
  | cons c0 rest ih =>
      intro m sub hk hs ch hch
      simp only [List.foldl_cons]
      rcases List.mem_cons.1 hch with hch | hch
      · subst hch
        exact subFree_preserved_foldl rest _ sub ch
          (keysNodup_cleanupChannel m ch sub hk)
          (setsNodup_cleanupChannel m ch sub hs)
          (cleanup_subFree_self m ch sub hk hs)
      · exact ih _ sub (keysNodup_cleanupChannel m c0 sub hk)
          (setsNodup_cleanupChannel m c0 sub hs) ch hch

theorem foldl_cleanup_noop (chs : List String) :
    ∀ (m : ChannelSubs) (sub : SSEConnection), noEmpty m →
      (∀ ch ∈ chs, ∀ s, amGet m ch = some s → sub ∉ s) →
      chs.foldl (fun m2 c => cleanupChannel m2 c sub) m = m := by
  induction chs with
  | nil => intro m sub _ _; rfl
  | cons c0 rest ih =>
      intro m sub hne hf
      simp only [List.foldl_cons]
      rw [cleanup_noop m c0 sub hne (hf c0 (by simp))]
      exact ih m sub hne (fun ch hch => hf ch (List.mem_cons_of_mem c0 hch))

/-- C8: running a connection's cleanup twice in succession equals running
it once, for the single-channel route's cleanup and for the all-channels
route's cleanup: the second run finds nothing left to remove and changes
no registry state. -/
theorem cleanup_idempotent (m : ChannelSubs) (st : RegistryState) (ch u : String)
    (chs : List String) (sub : SSEConnection)
    (hk : keysNodup m) (hs : setsNodup m)
    (hk2 : keysNodup st.channelSubs) (hs2 : setsNodup st.channelSubs)
    (hne2 : noEmpty st.channelSubs) (ha : keysNodup st.allSubs) :
    cleanupChannel (cleanupChannel m ch sub) ch sub = cleanupChannel m ch sub
    ∧ cleanupAllChannels (cleanupAllChannels st u chs sub) u chs sub
        = cleanupAllChannels st u chs sub := by
  refine ⟨cleanupChannel_idem m ch sub hk hs, ?_⟩
  have h1 : chs.foldl (fun m2 c => cleanupChannel m2 c sub)
      (chs.foldl (fun m2 c => cleanupChannel m2 c sub) st.channelSubs)
      = chs.foldl (fun m2 c => cleanupChannel m2 c sub) st.channelSubs :=
    foldl_cleanup_noop chs _ sub
      (noEmpty_foldl_cleanup chs st.channelSubs sub hne2)
      (subFree_foldl_cleanup chs st.channelSubs sub hk2 hs2)
  have h2 : amDelete (amDelete st.allSubs u) u = amDelete st.allSubs u :=
    amDelete_of_amGet_none _ u (amGet_amDelete_self st.allSubs u ha)
  simp only [cleanupAllChannels]
  rw [h1, h2]

/-- Witness for C8 at a concrete registry. -/
theorem cleanup_idempotent_witness :
    cleanupChannel (cleanupChannel
        [("c1", [⟨1, ⟨false, true⟩, "u1"⟩, ⟨2, ⟨false, true⟩, "u2"⟩])] "c1"
        ⟨1, ⟨false, true⟩, "u1"⟩) "c1" ⟨1, ⟨false, true⟩, "u1"⟩
      = cleanupChannel
        [("c1", [⟨1, ⟨false, true⟩, "u1"⟩, ⟨2, ⟨false, true⟩, "u2"⟩])] "c1"
        ⟨1, ⟨false, true⟩, "u1"⟩
    ∧ cleanupAllChannels (cleanupAllChannels
        ⟨[("c1", [⟨1, ⟨false, true⟩, "u1"⟩])], [("u1", ⟨1, ⟨false, true⟩, "u1"⟩)]⟩
        "u1" ["c1"] ⟨1, ⟨false, true⟩, "u1"⟩) "u1" ["c1"] ⟨1, ⟨false, true⟩, "u1"⟩
      = cleanupAllChannels
        ⟨[("c1", [⟨1, ⟨false, true⟩, "u1"⟩])], [("u1", ⟨1, ⟨false, true⟩, "u1"⟩)]⟩
        "u1" ["c1"] ⟨1, ⟨false, true⟩, "u1"⟩ :=
  cleanup_idempotent
    [("c1", [⟨1, ⟨false, true⟩, "u1"⟩, ⟨2, ⟨false, true⟩, "u2"⟩])]
    ⟨[("c1", [⟨1, ⟨false, true⟩, "u1"⟩])], [("u1", ⟨1, ⟨false, true⟩, "u1"⟩)]⟩
    "c1" "u1" ["c1"] ⟨1, ⟨false, true⟩, "u1"⟩
    (by decide) (by decide) (by decide) (by decide) (by decide) (by decide)

/-! The all-channels slot. -/

theorem mem_preserved_foldl_subscribe (chs : List String) :
    ∀ (m : ChannelSubs) (sub x : SSEConnection) (ch : String),
      (∃ s, amGet m ch = some s ∧ x ∈ s) →
      ∃ s, amGet (chs.foldl (fun m2 c => subscribeChannel m2 c sub) m) ch = some s
        ∧ x ∈ s := by
  induction chs with
  | nil => intro m sub x ch h; simpa using h
  | cons c0 rest ih =>
      intro m sub x ch h
      simp only [List.foldl_cons]
      exact ih _ sub x ch (subscribeChannel_preserves_mem m ch c0 sub x h)

theorem mem_foldl_subscribe (chs : List String) :
    ∀ (m : ChannelSubs) (sub : SSEConnection), ∀ ch ∈ chs,
      ∃ s, amGet (chs.foldl (fun m2 c => subscribeChannel m2 c sub) m) ch = some s
        ∧ sub ∈ s := by
  induction chs with
  | nil => intro m sub ch hch; simp at hch
  | cons c0 rest ih =>
      intro m sub ch hch
      simp only [List.foldl_cons]
      rcases List.mem_cons.1 hch with hch | hch
      · subst hch
        exact mem_preserved_foldl_subscribe rest _ sub sub ch
          (amGet_subscribeChannel_self m ch sub)
      · exact ih _ sub ch hch

theorem mem_preserved_foldl_cleanup (chs : List String) :
    ∀ (m : ChannelSubs) (sub x : SSEConnection) (ch : String), x ≠ sub →
      (∃ s, amGet m ch = some s ∧ x ∈ s) →
      ∃ s, amGet (chs.foldl (fun m2 c => cleanupChannel m2 c sub) m) ch = some s
        ∧ x ∈ s := by
  induction chs with
  | nil => intro m sub x ch _ h; simpa using h
  | cons c0 rest ih =>
      intro m sub x ch hne h
      simp only [List.foldl_cons]
      exact ih _ sub x ch hne (cleanupChannel_preserves_mem m ch c0 sub x hne h)

/-- C9: a second all-channels connection for the same user overwrites the
user's all-conversations slot, and the cleanup of the FIRST (older)
connection deletes the slot unconditionally: afterwards
`isUserSubscribedToAllChannels` reports `false` for the user even though
the second connection is still a member of every one of its conversation
sets. -/
theorem allchannels_slot_clobbered_by_stale_cleanup (st : RegistryState)
    (u : String) (chs : List String) (sub1 sub2 : SSEConnection)
    (hne : chs ≠ []) (hsub : sub1 ≠ sub2) (ha : keysNodup st.allSubs) :
    isUserSubscribedToAllChannels
        (cleanupAllChannels
          (subscribeAllChannels (subscribeAllChannels st u chs sub1) u chs sub2)
          u chs sub1) u = false
    ∧ ∀ ch ∈ chs, ∃ s,
        amGet (cleanupAllChannels
          (subscribeAllChannels (subscribeAllChannels st u chs sub1) u chs sub2)
          u chs sub1).channelSubs ch = some s ∧ sub2 ∈ s := by
  have hemp : chs.isEmpty = false := by
    cases chs with
    | nil => exact absurd rfl hne
    | cons a l => rfl
  constructor
  · simp only [subscribeAllChannels, cleanupAllChannels,
      isUserSubscribedToAllChannels, amHas, hemp, Bool.false_eq_true, if_false]
    rw [amGet_amDelete_self _ u
      (keysNodup_amSet _ u sub2 (keysNodup_amSet _ u sub1 ha))]
    rfl
  · intro ch hch
    simp only [subscribeAllChannels, cleanupAllChannels, hemp,
      Bool.false_eq_true, if_false]
    exact mem_preserved_foldl_cleanup chs _ sub1 sub2 ch (Ne.symm hsub)
      (mem_foldl_subscribe chs _ sub2 ch hch)

/-- Witness for C9: user u1 opens two all-channels connections over
conversation c1; after the first connection's cleanup the slot is gone
while the second connection is still subscribed to c1. -/
theorem allchannels_slot_clobbered_witness :
    isUserSubscribedToAllChannels
        (cleanupAllChannels
          (subscribeAllChannels
            (subscribeAllChannels (⟨[], []⟩ : RegistryState) "u1" ["c1"]
              ⟨1, ⟨false, true⟩, "u1"⟩)
            "u1" ["c1"] ⟨2, ⟨false, true⟩, "u1"⟩)
          "u1" ["c1"] ⟨1, ⟨false, true⟩, "u1"⟩) "u1" = false
    ∧ ∀ ch ∈ ["c1"], ∃ s,
        amGet (cleanupAllChannels
          (subscribeAllChannels
            (subscribeAllChannels (⟨[], []⟩ : RegistryState) "u1" ["c1"]
              ⟨1, ⟨false, true⟩, "u1"⟩)
            "u1" ["c1"] ⟨2, ⟨false, true⟩, "u1"⟩)
          "u1" ["c1"] ⟨1, ⟨false, true⟩, "u1"⟩).channelSubs ch = some s
        ∧ (⟨2, ⟨false, true⟩, "u1"⟩ : SSEConnection) ∈ s :=
  allchannels_slot_clobbered_by_stale_cleanup ⟨[], []⟩ "u1" ["c1"]
    ⟨1, ⟨false, true⟩, "u1"⟩ ⟨2, ⟨false, true⟩, "u1"⟩
    (by decide) (by decide) (by decide)

/-- C10: `sendSSEMessage` is total — it never propagates an exception from
the transport — and returns `true` exactly when the stream has not ended
and the write is accepted; a throwing write or an ended stream yields
`false`. -/
theorem sendSSEMessage_never_throws (conn : SSEConnection) (msg : SSEMessage) :
    sendSSEMessage conn msg = (!conn.res.writableEnded && conn.res.writeOk) := by
  cases h1 : conn.res.writableEnded <;> cases h2 : conn.res.writeOk <;>
    simp [sendSSEMessage, resWrite, h1, h2]

end Iteca
